import Mathlib

/-!
Verification development for the graph-ui-library layout and interaction
engine (`src/components/Graph.tsx` / `GraphEdges.tsx` / `GraphNode.tsx`).

The TypeScript source is shallowly embedded: the viewport transform and
position maps use exact rationals (`ℚ`) where the code's arithmetic is
field arithmetic with comparisons, and real numbers (`ℝ`) where the code
uses trigonometry (`Math.cos` / `Math.sin` in node expansion).  JavaScript
`Set` objects are modelled as insertion-ordered duplicate-free lists,
JavaScript records (`Record<string, …>`) as functions into `Option`,
and JavaScript string falsiness (`""` and `undefined` are falsy) via
`jsTruthy`.
-/

/-- A 2D point, `{ x, y }` in the source. -/
structure Pos (α : Type) where
  x : α
  y : α
deriving DecidableEq, Repr

/-- The viewport transform state `{ x, y, scale }` of `Graph.tsx`
(`translate = (x, y)`, uniform `scale`). -/
structure Transform (α : Type) where
  x : α
  y : α
  scale : α
deriving DecidableEq, Repr

/-- Embedding of `handleWheel` (Graph.tsx lines 382-404): given the pointer position
relative to the svg and the raw wheel `deltaY`, computes
`delta = deltaY * -0.005`, `newScale = min (max (scale + delta) 0.1) 5`,
`scaleFactor = newScale / scale`, and the new translate
`t' = pointer - (pointer - t) * scaleFactor`. -/
def handleWheel (t : Transform ℚ) (pointer : Pos ℚ) (deltaY : ℚ) : Transform ℚ :=
  let delta := deltaY * (-(1/200))
  let newScale := min (max (t.scale + delta) (1/10)) 5
  let scaleFactor := newScale / t.scale
  { x := pointer.x - (pointer.x - t.x) * scaleFactor
    y := pointer.y - (pointer.y - t.y) * scaleFactor
    scale := newScale }

/-- Embedding of `handleZoomIn` (Graph.tsx lines 440-448), scale component:
`newScale = min (scale + 0.2) 5`; translate unchanged. -/
def handleZoomInScale (s : ℚ) : ℚ := min (s + 2/10) 5

/-- Embedding of `handleZoomOut` (Graph.tsx lines 450-458), scale component:
`newScale = max (scale - 0.2) 0.1`; translate unchanged. -/
def handleZoomOutScale (s : ℚ) : ℚ := max (s - 2/10) (1/10)

/-- One user zoom operation: the zoom-in button, the zoom-out button, or a
wheel event with raw `deltaY`. -/
inductive ZoomOp : Type
  | zoomIn : ZoomOp
  | zoomOut : ZoomOp
  | wheel (deltaY : ℚ) : ZoomOp
deriving DecidableEq, Repr

/-- Effect of one zoom operation on the scale, read off the corresponding
handler in Graph.tsx. -/
def applyZoomScale : ZoomOp → ℚ → ℚ
  | ZoomOp.zoomIn, s => handleZoomInScale s
  | ZoomOp.zoomOut, s => handleZoomOutScale s
  | ZoomOp.wheel deltaY, s => min (max (s + deltaY * (-(1/200))) (1/10)) 5

/-- Effect of a sequence of zoom operations on the scale. -/
def applyZoomSeq (ops : List ZoomOp) (s : ℚ) : ℚ :=
  ops.foldl (fun acc op => applyZoomScale op acc) s

/-- JavaScript truthiness of an optional string: `undefined` and `""` are
falsy.  `jsTruthy o = some s` exactly when `o` holds the truthy string `s`;
this is the semantics of `a || b` chains on string-valued fields. -/
def jsTruthy : Option String → Option String
  | none => none
  | some s => if s = "" then none else some s

/-- One entry of `node.metadata.imports`: in the source an import is either
a plain string or an object carrying `name` / `path` fields
(`typeof imp === 'string' ? imp : imp.name || imp.path`). -/
inductive ImportEntry : Type
  | str (s : String) : ImportEntry
  | obj (name : Option String) (path : Option String) : ImportEntry
deriving DecidableEq, Repr

/-- The `importName` the source extracts from an import entry, `none` when
the entry is falsy (the `if (!importName) return;` guard). -/
def importEntryName : ImportEntry → Option String
  | ImportEntry.str s => jsTruthy (some s)
  | ImportEntry.obj name path =>
    match jsTruthy name with
    | some s => some s
    | none => jsTruthy path

/-- The metadata bag of a node, restricted to the fields the engine reads
(`outgoingDependencies`, `imports`, `fullName`, `filePath`, `path`).  The
shape is reconstructed from the accesses in Graph.tsx since
`types/graph.ts` is not part of the analysed sources. -/
structure Metadata : Type where
  outgoingDependencies : Option (List String)
  imports : Option (List ImportEntry)
  fullName : Option String
  filePath : Option String
  path : Option String
deriving DecidableEq, Repr

/-- A graph node, restricted to the fields the engine reads
(`id`, `name`, `title`, `type`, `filepath`, `metadata`). -/
structure Node : Type where
  id : String
  name : Option String
  title : Option String
  type : Option String
  filepath : Option String
  metadata : Option Metadata
deriving DecidableEq, Repr

/-- A directed edge `(source, target)` with its `type` label. -/
structure Edge : Type where
  source : String
  target : String
  type : Option String
deriving DecidableEq, Repr

/-- The highlight-set key of an edge, `` `${edge.source}-${edge.target}` ``. -/
def edgeKey (edge : Edge) : String := edge.source ++ "-" ++ edge.target

/-- The position map `Record<string, {x, y}>`, modelled as a function into
`Option`: `m id = none` means the record has no entry for `id`. -/
def PosMap (α : Type) : Type := String → Option (Pos α)

/-- Adding an element to a JavaScript `Set` modelled as an
insertion-ordered duplicate-free list. -/
def jsSetAdd (l : List String) (a : String) : List String :=
  if a ∈ l then l else l ++ [a]

/-- The JavaScript `new Set(xs)` for a list of strings: first occurrences, in order. -/
def jsSetOfList (xs : List String) : List String := xs.foldl jsSetAdd []

/-- The highlight state `{ nodes: Set<string>, edges: Set<string> }`. -/
structure HighlightedPath : Type where
  nodes : List String
  edges : List String
deriving DecidableEq, Repr

/-- Embedding of `validEdges` (GraphEdges.tsx lines 30-40): keep an edge only when both
endpoint lookups succeed and all four coordinates differ from `0`
(`sourcePos && targetPos && sourcePos.x !== 0 && sourcePos.y !== 0 &&
targetPos.x !== 0 && targetPos.y !== 0`). -/
def validEdges {α : Type} [Zero α] [DecidableEq α]
    (edges : List Edge) (nodePositions : PosMap α) : List Edge :=
  edges.filter fun edge =>
    match nodePositions edge.source, nodePositions edge.target with
    | some sourcePos, some targetPos =>
        decide (sourcePos.x ≠ 0) && decide (sourcePos.y ≠ 0) &&
        decide (targetPos.x ≠ 0) && decide (targetPos.y ≠ 0)
    | _, _ => false

/-- The node-render guard (Graph.tsx lines 1035-1037):
`const position = nodePositions[node.id] || { x: 0, y: 0 };
if (position.x === 0 && position.y === 0) return null;`.
Returns `true` when the node is skipped (not rendered). -/
def nodeRenderSkipped {α : Type} [Zero α] [DecidableEq α]
    (nodePositions : PosMap α) (node : Node) : Bool :=
  let position := (nodePositions node.id).getD ⟨0, 0⟩
  decide (position.x = 0) && decide (position.y = 0)

/-- The five layout kinds accepted by the `autoLayout` prop. -/
inductive LayoutKind : Type
  | circular : LayoutKind
  | force : LayoutKind
  | tree : LayoutKind
  | spiral : LayoutKind
  | donut : LayoutKind
deriving DecidableEq, Repr

/-- Which layout routine the layout effect ends up calling. -/
inductive LayoutAlgorithm : Type
  | circularLayout : LayoutAlgorithm
  | spiralLayout : LayoutAlgorithm
  | donutLayout : LayoutAlgorithm
  | forceLayout : LayoutAlgorithm
deriving DecidableEq, Repr

/-- Embedding of `actualLayout` (Graph.tsx line 475):
`nodeCount > 50 && autoLayout === 'circular' ? 'donut' : autoLayout`. -/
def actualLayout (nodeCount : ℕ) (autoLayout : LayoutKind) : LayoutKind :=
  if nodeCount > 50 ∧ autoLayout = LayoutKind.circular then
    LayoutKind.donut
  else
    autoLayout

/-- The dispatch on `actualLayout` (Graph.tsx lines 478-509): circular and
tree call `createCircularLayout` (tree is the documented fallback), spiral
calls `createSpiralLayout`, donut calls `createDonutLayout`, anything else
calls `createForceLayout`. -/
def layoutDispatch : LayoutKind → LayoutAlgorithm
  | LayoutKind.circular => LayoutAlgorithm.circularLayout
  | LayoutKind.tree => LayoutAlgorithm.circularLayout
  | LayoutKind.spiral => LayoutAlgorithm.spiralLayout
  | LayoutKind.donut => LayoutAlgorithm.donutLayout
  | LayoutKind.force => LayoutAlgorithm.forceLayout

/-- Embedding of `handleEdgeClick` (Graph.tsx lines 324-329): the new highlight state is
`{ nodes: new Set([edge.source, edge.target]),
edges: new Set([`${edge.source}-${edge.target}`]) }`.  The handler passes a
value (not an updater) to `setHighlightedPath`, so the previous highlight
state `prev` is ignored entirely. -/
def handleEdgeClick (edge : Edge) (prev : HighlightedPath) : HighlightedPath :=
  { nodes := jsSetOfList [edge.source, edge.target]
    edges := jsSetOfList [edgeKey edge] }

/-- The position-pruning updater of the reset-on-data-change effect
(Graph.tsx lines 969-982): keep an entry only when its id is among the ids
of the current node list. -/
def prunePositions (nodes : List Node) (prev : PosMap ℚ) : PosMap ℚ :=
  fun id => if id ∈ nodes.map Node.id then prev id else none

/-- The reset-on-data-change effect (Graph.tsx lines 962-983): clears the
highlighted path, clears the selected node, and prunes the position map.
Returns the (highlightedPath, selectedNode, nodePositions) triple it
installs. -/
def resetOnDataChange (nodes : List Node) (prevPositions : PosMap ℚ) :
    HighlightedPath × Option Node × PosMap ℚ :=
  (⟨[], []⟩, none, prunePositions nodes prevPositions)

/-- Embedding of `getNodeDisplayName` (Graph.tsx lines 340-342, also GraphNode.tsx line
207): `node.name || node.title || \x7bNode ${node.id}\x7d` with JavaScript
string falsiness. -/
def getNodeDisplayName (node : Node) : String :=
  match jsTruthy node.name with
  | some s => s
  | none =>
    match jsTruthy node.title with
    | some s => s
    | none => "Node " ++ node.id

/-- The predicate of `processedData.nodes.find(...)` used for one entry of
`metadata.outgoingDependencies` (Graph.tsx lines 716-720):
`n.id === dep || n.name === dep || n.title === dep ||
n.metadata?.fullName === dep`. -/
def depMatches (dep : String) (n : Node) : Bool :=
  n.id == dep || n.name == some dep || n.title == some dep ||
  (match n.metadata with
   | some md => md.fullName == some dep
   | none => false)

/-- Contiguous-sublist test on character lists, the semantics of
JavaScript `String.prototype.includes`. -/
def containsSub (pat : List Char) : List Char → Bool
  | [] => pat.isEmpty
  | c :: rest => pat.isPrefixOf (c :: rest) || containsSub pat rest

/-- JavaScript `s.includes(pat)`: `pat` occurs contiguously in `s`. -/
def strIncludes (s pat : String) : Bool := containsSub pat.data s.data

/-- The predicate of `processedData.nodes.find(...)` used for one import
name (Graph.tsx lines 737-741): `n.id === importName ||
n.name === importName || n.title === importName ||
(n.metadata?.filePath && importName.includes(n.metadata.filePath))`. -/
def importMatches (importName : String) (n : Node) : Bool :=
  n.id == importName || n.name == some importName || n.title == some importName ||
  (match n.metadata with
   | some md =>
     match md.filePath with
     | some fp => !(fp == "") && strIncludes importName fp
     | none => false
   | none => false)

/-- The discovery phase of `handleExpandNode` (Graph.tsx lines 695-750):
scans the edge list for edges out of `node`, then
`metadata.outgoingDependencies`, then `metadata.imports`, accumulating the
pair `(newNodeIds, childEdges)` of discovered neighbor ids and connecting
edge keys (both JavaScript `Set`s; in the source `newEdgeKeys` and
`childEdges` receive identical inserts, so one key set suffices). -/
def discoverExpansion (nodes : List Node) (edges : List Edge) (node : Node) :
    List String × List String :=
  let s1 := edges.foldl
    (fun acc e =>
      if e.source == node.id then
        (jsSetAdd acc.1 e.target, jsSetAdd acc.2 (edgeKey e))
      else acc)
    ([], [])
  let s2 :=
    match node.metadata with
    | none => s1
    | some md =>
      match md.outgoingDependencies with
      | none => s1
      | some deps =>
        deps.foldl
          (fun acc dep =>
            match nodes.find? (fun n => depMatches dep n) with
            | some dependentNode =>
              (jsSetAdd acc.1 dependentNode.id,
               jsSetAdd acc.2 (node.id ++ "-" ++ dependentNode.id))
            | none => acc)
          s1
  match node.metadata with
  | none => s2
  | some md =>
    match md.imports with
    | none => s2
    | some imps =>
      imps.foldl
        (fun acc imp =>
          match importEntryName imp with
          | none => acc
          | some importName =>
            match nodes.find? (fun n => importMatches importName n) with
            | some importedNode =>
              (jsSetAdd acc.1 importedNode.id,
               jsSetAdd acc.2 (node.id ++ "-" ++ importedNode.id))
            | none => acc)
        s2

open Classical in
/-- The loop body of the `nodesToReveal` computation (Graph.tsx lines
756-763): a discovered id is collected when it has no position entry or
holds the `(0,0)` sentinel
(`!nodePositions[nodeId] || (nodePositions[nodeId].x === 0 &&
nodePositions[nodeId].y === 0)`). -/
noncomputable def revealStep (positions : PosMap ℝ) (acc : List String)
    (nodeId : String) : List String :=
  match positions nodeId with
  | none => jsSetAdd acc nodeId
  | some p => if p.x = 0 ∧ p.y = 0 then jsSetAdd acc nodeId else acc

/-- The `nodesToReveal` set of `handleExpandNode` (Graph.tsx lines
754-763): the discovered ids that have no position entry or hold the
`(0,0)` sentinel. -/
noncomputable def nodesToReveal (positions : PosMap ℝ) (newNodeIds : List String) :
    List String :=
  newNodeIds.foldl (revealStep positions) []

/-- Functional update of a position map, the JavaScript spread
`{ ...m, [id]: p }`. -/
def updatePos {α : Type} (m : PosMap α) (id : String) (p : Pos α) : PosMap α :=
  fun k => if k = id then some p else m k

/-- The angular spacing of newly revealed nodes (Graph.tsx line 780):
`(2 * Math.PI) / Math.max(nodesToPlaceArray.length, 1)`. -/
noncomputable def expandAngleStep (count : ℕ) : ℝ :=
  2 * Real.pi / (max count 1 : ℕ)

/-- The start angle of newly revealed nodes (Graph.tsx lines 784-791):
`0` for a single node (placed to the right), `-π/2` (bottom) for two or
more. -/
noncomputable def expandStartAngle (count : ℕ) : ℝ :=
  if count = 1 then 0 else -(Real.pi / 2)

/-- The placement angle of the `index`-th of `count` newly revealed
nodes (Graph.tsx line 794): `startAngle + index * angleStep`. -/
noncomputable def expandAngle (count index : ℕ) : ℝ :=
  expandStartAngle count + index * expandAngleStep count

/-- The placement loop of `handleExpandNode` (Graph.tsx lines 776-799):
each newly revealed node is placed on the circle of radius 200 around the
anchor position `anchor`, at its index's angle. -/
noncomputable def placeRevealed (anchor : Pos ℝ) (toPlace : List String)
    (positions : PosMap ℝ) : PosMap ℝ :=
  (toPlace.enum).foldl
    (fun m ia =>
      updatePos m ia.2
        ⟨anchor.x + 200 * Real.cos (expandAngle toPlace.length ia.1),
         anchor.y + 200 * Real.sin (expandAngle toPlace.length ia.1)⟩)
    positions

open Classical in
/-- The position-map effect of `handleExpandNode` (Graph.tsx lines
752-807): when some discovered neighbor lacks a valid position and the
anchor `node` itself holds a position other than the `(0,0)` sentinel
(`nodePos.x !== 0 || nodePos.y !== 0` after
`nodePositions[node.id] || { x: 0, y: 0 }`), the revealed nodes are placed
around the anchor; otherwise the map is unchanged. -/
noncomputable def handleExpandNodePositions (nodes : List Node) (edges : List Edge)
    (node : Node) (positions : PosMap ℝ) : PosMap ℝ :=
  if 0 < (nodesToReveal positions (discoverExpansion nodes edges node).1).length then
    if ((positions node.id).getD ⟨0, 0⟩).x ≠ 0 ∨
        ((positions node.id).getD ⟨0, 0⟩).y ≠ 0 then
      placeRevealed ((positions node.id).getD ⟨0, 0⟩)
        (nodesToReveal positions (discoverExpansion nodes edges node).1) positions
    else positions
  else positions

/-- The highlight effect of `handleExpandNode` (Graph.tsx lines 809-813):
`{ nodes: new Set([node.id, ...newNodeIds]), edges: childEdges }`,
independent of whether any placement happened. -/
def handleExpandNodeHighlight (nodes : List Node) (edges : List Edge)
    (node : Node) : HighlightedPath :=
  { nodes := jsSetOfList (node.id :: (discoverExpansion nodes edges node).1)
    edges := (discoverExpansion nodes edges node).2 }

/-- Euclidean distance between two points in graph space. -/
noncomputable def posDist (p q : Pos ℝ) : ℝ :=
  Real.sqrt ((p.x - q.x) ^ 2 + (p.y - q.y) ^ 2)

lemma handleWheel_scale_mem (t : Transform ℚ) (pointer : Pos ℚ) (deltaY : ℚ) :
    1/10 ≤ (handleWheel t pointer deltaY).scale ∧ (handleWheel t pointer deltaY).scale ≤ 5 := by
  refine ⟨le_min (le_max_right _ _) (by norm_num), min_le_right _ _⟩

lemma applyZoomScale_mem (op : ZoomOp) (s : ℚ) (h1 : 1/10 ≤ s) (h2 : s ≤ 5) :
    1/10 ≤ applyZoomScale op s ∧ applyZoomScale op s ≤ 5 := by
  cases op with
  | zoomIn =>
    constructor
    · exact le_min (by linarith) (by norm_num)
    · exact min_le_right _ _
  | zoomOut =>
    constructor
    · exact le_max_right _ _
    · exact max_le (by linarith) (by norm_num)
  | wheel deltaY =>
    exact ⟨le_min (le_max_right _ _) (by norm_num), min_le_right _ _⟩

lemma applyZoomSeq_mem (ops : List ZoomOp) (s : ℚ) (h1 : 1/10 ≤ s) (h2 : s ≤ 5) :
    1/10 ≤ applyZoomSeq ops s ∧ applyZoomSeq ops s ≤ 5 := by
  induction ops generalizing s with
  | nil => exact ⟨h1, h2⟩
  | cons op rest ih =>
    have hstep := applyZoomScale_mem op s h1 h2
    simpa [applyZoomSeq] using ih (applyZoomScale op s) hstep.1 hstep.2

/-- C1: Zoom-at-point is a fixed-point transform.  For every transform with
scale in `[0.1, 5.0]`, every pointer position and every wheel `deltaY`, the
graph-space coordinate under the pointer is unchanged by `handleWheel`:
`(p - t'.translate) / t'.scale = (p - t.translate) / t.scale` in both
coordinates, where `t' = handleWheel t p deltaY`. -/
theorem zoom_at_point_fixed_point (t : Transform ℚ) (pointer : Pos ℚ) (deltaY : ℚ)
    (h1 : 1/10 ≤ t.scale) (h2 : t.scale ≤ 5) :
    (pointer.x - (handleWheel t pointer deltaY).x) / (handleWheel t pointer deltaY).scale
      = (pointer.x - t.x) / t.scale ∧
    (pointer.y - (handleWheel t pointer deltaY).y) / (handleWheel t pointer deltaY).scale
      = (pointer.y - t.y) / t.scale := by
  have hs : t.scale ≠ 0 := by positivity
  have hns : (handleWheel t pointer deltaY).scale ≠ 0 := by
    have := (handleWheel_scale_mem t pointer deltaY).1
    positivity
  constructor
  · show (pointer.x - (pointer.x - (pointer.x - t.x) *
        ((handleWheel t pointer deltaY).scale / t.scale))) /
        (handleWheel t pointer deltaY).scale = (pointer.x - t.x) / t.scale
    field_simp
    ring
  · show (pointer.y - (pointer.y - (pointer.y - t.y) *
        ((handleWheel t pointer deltaY).scale / t.scale))) /
        (handleWheel t pointer deltaY).scale = (pointer.y - t.y) / t.scale
    field_simp
    ring

/-- Witness for C1 at a concrete transform, pointer and wheel delta. -/
theorem zoom_at_point_fixed_point_witness :
    (1/10 ≤ (1 : ℚ) ∧ (1 : ℚ) ≤ 5) ∧
    ((3 : ℚ) - (handleWheel ⟨7, -2, 1⟩ ⟨3, 4⟩ (-100)).x) /
        (handleWheel ⟨7, -2, 1⟩ ⟨3, 4⟩ (-100)).scale = ((3 : ℚ) - 7) / 1 :=
  ⟨⟨by norm_num, by norm_num⟩,
   (zoom_at_point_fixed_point ⟨7, -2, 1⟩ ⟨3, 4⟩ (-100) (by norm_num) (by norm_num)).1⟩

/-- C2: the scale invariant `[0.1, 5.0]` is preserved by every sequence of
zoom-in, zoom-out and wheel operations; in particular 100 repeated zoom-in
operations never push the scale above 5 and 100 repeated zoom-out operations
never push it below 0.1. -/
theorem scale_always_clamped (s : ℚ) (h1 : 1/10 ≤ s) (h2 : s ≤ 5) (ops : List ZoomOp) :
    (1/10 ≤ applyZoomSeq ops s ∧ applyZoomSeq ops s ≤ 5) ∧
    applyZoomSeq (List.replicate 100 ZoomOp.zoomIn) s ≤ 5 ∧
    1/10 ≤ applyZoomSeq (List.replicate 100 ZoomOp.zoomOut) s := by
  refine ⟨applyZoomSeq_mem ops s h1 h2, ?_, ?_⟩
  · exact (applyZoomSeq_mem (List.replicate 100 ZoomOp.zoomIn) s h1 h2).2
  · exact (applyZoomSeq_mem (List.replicate 100 ZoomOp.zoomOut) s h1 h2).1

/-- Witness for C2 at scale 1 and a concrete operation sequence. -/
theorem scale_always_clamped_witness :
    (1/10 ≤ applyZoomSeq [ZoomOp.zoomIn, ZoomOp.wheel (-2000), ZoomOp.zoomOut] 1 ∧
      applyZoomSeq [ZoomOp.zoomIn, ZoomOp.wheel (-2000), ZoomOp.zoomOut] 1 ≤ 5) ∧
    applyZoomSeq (List.replicate 100 ZoomOp.zoomIn) 1 ≤ 5 ∧
    1/10 ≤ applyZoomSeq (List.replicate 100 ZoomOp.zoomOut) 1 :=
  scale_always_clamped 1 (by norm_num) (by norm_num)
    [ZoomOp.zoomIn, ZoomOp.wheel (-2000), ZoomOp.zoomOut]

lemma mem_jsSetAdd (l : List String) (a x : String) :
    x ∈ jsSetAdd l a ↔ x ∈ l ∨ x = a := by
  unfold jsSetAdd
  by_cases h : a ∈ l
  · simp only [if_pos h]
    exact ⟨Or.inl, fun hx => hx.elim id (fun he => he ▸ h)⟩
  · simp [if_neg h]

/-- C3: an edge is in `validEdges` only if both endpoints have a position
entry that is not the `(0,0)` sentinel; an edge whose source or target has
no entry or the sentinel entry is excluded. -/
theorem edge_renderable_requires_valid_positions
    (edges : List Edge) (m : PosMap ℚ) (e : Edge) :
    (e ∈ validEdges edges m →
      (∃ sp, m e.source = some sp ∧ ¬(sp.x = 0 ∧ sp.y = 0)) ∧
      (∃ tp, m e.target = some tp ∧ ¬(tp.x = 0 ∧ tp.y = 0))) ∧
    ((m e.source = none ∨ m e.source = some ⟨0, 0⟩ ∨
      m e.target = none ∨ m e.target = some ⟨0, 0⟩) →
      e ∉ validEdges edges m) := by
  constructor
  · intro he
    rw [validEdges, List.mem_filter] at he
    obtain ⟨-, hp⟩ := he
    rcases hsrc : m e.source with _ | sp <;> rw [hsrc] at hp
    · simp at hp
    · rcases htgt : m e.target with _ | tp <;> rw [htgt] at hp
      · simp at hp
      · simp only [Bool.and_eq_true, decide_eq_true_eq] at hp
        exact ⟨⟨sp, rfl, fun hc => hp.1.1.1 hc.1⟩, ⟨tp, rfl, fun hc => hp.1.2 hc.1⟩⟩
  · intro hbad he
    rw [validEdges, List.mem_filter] at he
    obtain ⟨-, hp⟩ := he
    rcases hbad with h | h | h | h <;> rw [h] at hp
    · simp at hp
    · rcases htgt : m e.target with _ | tp <;> rw [htgt] at hp <;> simp at hp
    · rcases hsrc : m e.source with _ | sp <;> rw [hsrc] at hp <;> simp at hp
    · rcases hsrc : m e.source with _ | sp <;> rw [hsrc] at hp <;> simp at hp

/-- Witness for C3: the edge `a → b` where `b` has no position entry is
excluded from the renderable set. -/
theorem edge_renderable_requires_valid_positions_witness :
    Edge.mk "a" "b" none ∉
      validEdges [Edge.mk "a" "b" none]
        (fun id => if id = "a" then some ⟨1, 2⟩ else none) :=
  (edge_renderable_requires_valid_positions [Edge.mk "a" "b" none]
      (fun id => if id = "a" then some ⟨1, 2⟩ else none)
      (Edge.mk "a" "b" none)).2
    (Or.inr (Or.inr (Or.inl (by decide))))

/-- C10: the `validEdges` filter tests each coordinate separately, so an
endpoint position with x-coordinate 0 or y-coordinate 0 already excludes
the edge (not only the exact `(0,0)` sentinel), while the node-render
guard skips a node only when both coordinates are 0, so a node at a
position with exactly one zero coordinate is still rendered. -/
theorem single_zero_coordinate_edge_excluded_node_rendered
    (edges : List Edge) (m : PosMap ℚ) (e : Edge) (node : Node) :
    ((∃ sp, m e.source = some sp ∧ (sp.x = 0 ∨ sp.y = 0)) →
      e ∉ validEdges edges m) ∧
    ((∃ tp, m e.target = some tp ∧ (tp.x = 0 ∨ tp.y = 0)) →
      e ∉ validEdges edges m) ∧
    (∀ p, m node.id = some p → ¬(p.x = 0 ∧ p.y = 0) →
      nodeRenderSkipped m node = false) := by
  refine ⟨?_, ?_, ?_⟩
  · rintro ⟨sp, hsp, hzero⟩ he
    rw [validEdges, List.mem_filter] at he
    obtain ⟨-, hp⟩ := he
    rw [hsp] at hp
    rcases htgt : m e.target with _ | tp <;> rw [htgt] at hp
    · simp at hp
    · simp only [Bool.and_eq_true, decide_eq_true_eq] at hp
      rcases hzero with h | h
      · exact hp.1.1.1 h
      · exact hp.1.1.2 h
  · rintro ⟨tp, htp, hzero⟩ he
    rw [validEdges, List.mem_filter] at he
    obtain ⟨-, hp⟩ := he
    rw [htp] at hp
    rcases hsrc : m e.source with _ | sp <;> rw [hsrc] at hp
    · simp at hp
    · simp only [Bool.and_eq_true, decide_eq_true_eq] at hp
      rcases hzero with h | h
      · exact hp.1.2 h
      · exact hp.2 h
  · intro p hp hvalid
    rw [nodeRenderSkipped, hp]
    simp only [Option.getD_some, Bool.and_eq_false_iff, decide_eq_false_iff_not]
    by_cases hx : p.x = 0
    · exact Or.inr (fun hy => hvalid ⟨hx, hy⟩)
    · exact Or.inl hx

/-- Witness for C10: with source position `(0, 500)` the edge `a → b` is
excluded even though `(0,500)` is not the sentinel, and the node `a`
itself is still rendered. -/
theorem single_zero_coordinate_witness :
    (Edge.mk "a" "b" none ∉
      validEdges [Edge.mk "a" "b" none]
        (fun id => if id = "a" then some ⟨0, 500⟩ else
          if id = "b" then some ⟨1, 1⟩ else none)) ∧
    nodeRenderSkipped
      (fun id => if id = "a" then some ⟨0, 500⟩ else
        if id = "b" then some ⟨1, 1⟩ else none)
      (Node.mk "a" none none none none none) = false :=
  ⟨(single_zero_coordinate_edge_excluded_node_rendered
      [Edge.mk "a" "b" none]
      (fun id => if id = "a" then some ⟨0, 500⟩ else
        if id = "b" then some ⟨1, 1⟩ else none)
      (Edge.mk "a" "b" none) (Node.mk "a" none none none none none)).1
    ⟨⟨0, 500⟩, by decide, Or.inl rfl⟩,
   (single_zero_coordinate_edge_excluded_node_rendered
      [Edge.mk "a" "b" none]
      (fun id => if id = "a" then some ⟨0, 500⟩ else
        if id = "b" then some ⟨1, 1⟩ else none)
      (Edge.mk "a" "b" none) (Node.mk "a" none none none none none)).2.2
    ⟨0, 500⟩ (by decide) (by decide)⟩

/-- C4: with more than 50 nodes a requested `circular` layout is silently
replaced by `donut` (and dispatches to `createDonutLayout`); with at most
50 nodes the `circular` request stays circular (and dispatches to
`createCircularLayout`). -/
theorem circular_layout_donut_substitution (n : ℕ) :
    (n > 50 → actualLayout n LayoutKind.circular = LayoutKind.donut ∧
      layoutDispatch (actualLayout n LayoutKind.circular) =
        LayoutAlgorithm.donutLayout) ∧
    (n ≤ 50 → actualLayout n LayoutKind.circular = LayoutKind.circular ∧
      layoutDispatch (actualLayout n LayoutKind.circular) =
        LayoutAlgorithm.circularLayout) := by
  constructor
  · intro h
    have : actualLayout n LayoutKind.circular = LayoutKind.donut := by
      rw [actualLayout, if_pos ⟨h, rfl⟩]
    exact ⟨this, by rw [this]; rfl⟩
  · intro h
    have : actualLayout n LayoutKind.circular = LayoutKind.circular := by
      rw [actualLayout, if_neg]
      rintro ⟨hgt, -⟩
      omega
    exact ⟨this, by rw [this]; rfl⟩

/-- Witness for C4 at 51 nodes (donut substitution) and 50 nodes
(circular kept). -/
theorem circular_layout_donut_substitution_witness :
    (actualLayout 51 LayoutKind.circular = LayoutKind.donut ∧
      layoutDispatch (actualLayout 51 LayoutKind.circular) =
        LayoutAlgorithm.donutLayout) ∧
    (actualLayout 50 LayoutKind.circular = LayoutKind.circular ∧
      layoutDispatch (actualLayout 50 LayoutKind.circular) =
        LayoutAlgorithm.circularLayout) :=
  ⟨(circular_layout_donut_substitution 51).1 (by decide),
   (circular_layout_donut_substitution 50).2 (by decide)⟩

/-- C7: clicking an edge resets the highlight set to exactly the edge's
two endpoints and its single edge key, independently of the previous
highlight state (strict reset, not union). -/
theorem edge_click_strict_reset (edge : Edge) (prev prev' : HighlightedPath) :
    (∀ x, x ∈ (handleEdgeClick edge prev).nodes ↔
      (x = edge.source ∨ x = edge.target)) ∧
    (∀ k, k ∈ (handleEdgeClick edge prev).edges ↔ k = edgeKey edge) ∧
    handleEdgeClick edge prev = handleEdgeClick edge prev' := by
  refine ⟨?_, ?_, rfl⟩
  · intro x
    show x ∈ jsSetOfList [edge.source, edge.target] ↔ _
    rw [jsSetOfList]
    simp only [List.foldl]
    rw [mem_jsSetAdd, mem_jsSetAdd]
    simp
  · intro k
    show k ∈ jsSetOfList [edgeKey edge] ↔ _
    rw [jsSetOfList]
    simp only [List.foldl]
    rw [mem_jsSetAdd]
    simp

/-- C8: whenever the node list changes, the highlight set and the selected
node are cleared, every position entry for an id absent from the new node
list is removed, and entries for ids still present are kept unchanged. -/
theorem data_change_resets_state (nodes : List Node) (prev : PosMap ℚ) :
    (resetOnDataChange nodes prev).1 = ⟨[], []⟩ ∧
    (resetOnDataChange nodes prev).2.1 = none ∧
    (∀ id, id ∉ nodes.map Node.id → (resetOnDataChange nodes prev).2.2 id = none) ∧
    (∀ id, id ∈ nodes.map Node.id → (resetOnDataChange nodes prev).2.2 id = prev id) := by
  refine ⟨rfl, rfl, ?_, ?_⟩
  · intro id hid
    show prunePositions nodes prev id = none
    rw [prunePositions, if_neg hid]
  · intro id hid
    show prunePositions nodes prev id = prev id
    rw [prunePositions, if_pos hid]

/-- Witness for C8: after a data change to a node list containing only
`"a"`, the stale entry for `"z"` is pruned while `"a"` keeps its
position. -/
theorem data_change_resets_state_witness :
    (resetOnDataChange [Node.mk "a" none none none none none]
      (fun id => if id = "a" then some ⟨1, 2⟩ else
        if id = "z" then some ⟨3, 4⟩ else none)).2.2 "z" = none ∧
    (resetOnDataChange [Node.mk "a" none none none none none]
      (fun id => if id = "a" then some ⟨1, 2⟩ else
        if id = "z" then some ⟨3, 4⟩ else none)).2.2 "a" = some ⟨1, 2⟩ :=
  ⟨(data_change_resets_state [Node.mk "a" none none none none none]
      (fun id => if id = "a" then some ⟨1, 2⟩ else
        if id = "z" then some ⟨3, 4⟩ else none)).2.2.1 "z" (by decide),
   by
    rw [(data_change_resets_state [Node.mk "a" none none none none none]
      (fun id => if id = "a" then some ⟨1, 2⟩ else
        if id = "z" then some ⟨3, 4⟩ else none)).2.2.2 "a" (by decide)]
    decide⟩

/-- Counterexample to C9 as stated: a node with no `name` but with a
`title` displays the title, not the id-synthesized label. -/
theorem display_name_fallback_counterexample :
    (Node.mk "7" none (some "T") none none none).name = none ∧
    getNodeDisplayName (Node.mk "7" none (some "T") none none none) ≠
      "Node " ++ (Node.mk "7" none (some "T") none none none).id := by
  exact ⟨rfl, by decide⟩

/-- C9 (amended): when `name` is absent or empty, the display name falls
back to the node's `title` when that is present and non-empty, and only
when `title` is also absent or empty does it fall back to the label
`"Node <id>"` synthesized from the id. -/
theorem display_name_fallback (node : Node)
    (hname : jsTruthy node.name = none) :
    (jsTruthy node.title = none →
      getNodeDisplayName node = "Node " ++ node.id) ∧
    (∀ t, jsTruthy node.title = some t → getNodeDisplayName node = t) := by
  constructor
  · intro htitle
    rw [getNodeDisplayName, hname, htitle]
  · intro t htitle
    rw [getNodeDisplayName, hname, htitle]

/-- Witness for C9 (amended) on a node with neither `name` nor `title`. -/
theorem display_name_fallback_witness :
    getNodeDisplayName (Node.mk "7" none none none none none) = "Node 7" :=
  (display_name_fallback (Node.mk "7" none none none none none) rfl).1 rfl

lemma mem_foldl_jsSetAdd (l acc : List String) (x : String) :
    x ∈ l.foldl jsSetAdd acc ↔ x ∈ acc ∨ x ∈ l := by
  induction l generalizing acc with
  | nil => simp
  | cons a rest ih =>
    rw [List.foldl_cons, ih, mem_jsSetAdd]
    simp [List.mem_cons, or_assoc]

lemma mem_jsSetOfList (l : List String) (x : String) :
    x ∈ jsSetOfList l ↔ x ∈ l := by
  rw [jsSetOfList, mem_foldl_jsSetAdd]
  simp

lemma jsSetAdd_nodup {l : List String} (h : l.Nodup) (a : String) :
    (jsSetAdd l a).Nodup := by
  rw [jsSetAdd]
  split
  · exact h
  · rename_i ha
    rw [List.nodup_append]
    exact ⟨h, List.nodup_singleton a,
      fun x hx hxa => ha ((List.mem_singleton.mp hxa) ▸ hx)⟩

lemma revealStep_none {positions : PosMap ℝ} {a : String}
    (hp : positions a = none) (acc : List String) :
    revealStep positions acc a = jsSetAdd acc a := by
  unfold revealStep
  rw [hp]

lemma revealStep_sentinel {positions : PosMap ℝ} {a : String} {p : Pos ℝ}
    (hp : positions a = some p) (h : p.x = 0 ∧ p.y = 0) (acc : List String) :
    revealStep positions acc a = jsSetAdd acc a := by
  unfold revealStep
  rw [hp]
  exact if_pos h

lemma revealStep_valid {positions : PosMap ℝ} {a : String} {p : Pos ℝ}
    (hp : positions a = some p) (h : ¬(p.x = 0 ∧ p.y = 0)) (acc : List String) :
    revealStep positions acc a = acc := by
  unfold revealStep
  rw [hp]
  exact if_neg h

lemma revealStep_spec (positions : PosMap ℝ) (acc : List String) (a : String) :
    revealStep positions acc a = jsSetAdd acc a ∨ revealStep positions acc a = acc := by
  rcases hp : positions a with _ | p
  · exact Or.inl (revealStep_none hp acc)
  · by_cases h : p.x = 0 ∧ p.y = 0
    · exact Or.inl (revealStep_sentinel hp h acc)
    · exact Or.inr (revealStep_valid hp h acc)

lemma nodesToReveal_go_nodup (positions : PosMap ℝ) (l : List String) :
    ∀ acc : List String, acc.Nodup → (l.foldl (revealStep positions) acc).Nodup := by
  induction l with
  | nil => exact fun acc h => h
  | cons a rest ih =>
    intro acc h
    rw [List.foldl_cons]
    apply ih
    rcases revealStep_spec positions acc a with he | he <;> rw [he]
    · exact jsSetAdd_nodup h a
    · exact h

lemma nodesToReveal_nodup (positions : PosMap ℝ) (ids : List String) :
    (nodesToReveal positions ids).Nodup :=
  nodesToReveal_go_nodup positions ids [] List.nodup_nil

lemma nodesToReveal_go_invalid (positions : PosMap ℝ) (l : List String) (x : String) :
    ∀ acc : List String, x ∈ l.foldl (revealStep positions) acc →
      x ∈ acc ∨ positions x = none ∨
        ∃ p, positions x = some p ∧ p.x = 0 ∧ p.y = 0 := by
  induction l with
  | nil => exact fun acc h => Or.inl h
  | cons a rest ih =>
    intro acc h
    rw [List.foldl_cons] at h
    rcases ih _ h with hmem | hrest
    · rcases hp : positions a with _ | p
      · rw [revealStep_none hp, mem_jsSetAdd] at hmem
        rcases hmem with h1 | rfl
        · exact Or.inl h1
        · exact Or.inr (Or.inl hp)
      · by_cases hc : p.x = 0 ∧ p.y = 0
        · rw [revealStep_sentinel hp hc, mem_jsSetAdd] at hmem
          rcases hmem with h1 | rfl
          · exact Or.inl h1
          · exact Or.inr (Or.inr ⟨p, hp, hc⟩)
        · rw [revealStep_valid hp hc] at hmem
          exact Or.inl hmem
    · exact Or.inr hrest

lemma nodesToReveal_invalid (positions : PosMap ℝ) (ids : List String) (x : String)
    (h : x ∈ nodesToReveal positions ids) :
    positions x = none ∨ ∃ p, positions x = some p ∧ p.x = 0 ∧ p.y = 0 := by
  rcases nodesToReveal_go_invalid positions ids x [] h with hin | hr
  · exact absurd hin (List.not_mem_nil x)
  · exact hr

lemma nodesToReveal_nil (positions : PosMap ℝ) (ids : List String)
    (h : ∀ d ∈ ids, ∃ p, positions d = some p ∧ ¬(p.x = 0 ∧ p.y = 0)) :
    nodesToReveal positions ids = [] := by
  have go : ∀ l : List String,
      (∀ d ∈ l, ∃ p, positions d = some p ∧ ¬(p.x = 0 ∧ p.y = 0)) →
      ∀ acc, l.foldl (revealStep positions) acc = acc := by
    intro l
    induction l with
    | nil => exact fun _ _ => rfl
    | cons a rest ih =>
      intro hl acc
      rw [List.foldl_cons]
      obtain ⟨p, hp, hv⟩ := hl a (List.mem_cons_self a rest)
      rw [revealStep_valid hp hv]
      exact ih (fun d hd => hl d (List.mem_cons_of_mem a hd)) acc
  exact go ids h []

lemma updatePos_same {α : Type} (m : PosMap α) (id : String) (p : Pos α) :
    updatePos m id p id = some p := by
  simp [updatePos]

lemma updatePos_other {α : Type} (m : PosMap α) (id k : String) (p : Pos α)
    (h : k ≠ id) : updatePos m id p k = m k := by
  simp [updatePos, h]

lemma foldl_updatePos_apply (g : ℕ × String → Pos ℝ) (l : List (ℕ × String))
    (m : PosMap ℝ) (id : String) (h : ∀ pr ∈ l, pr.2 ≠ id) :
    l.foldl (fun acc pr => updatePos acc pr.2 (g pr)) m id = m id := by
  induction l generalizing m with
  | nil => rfl
  | cons pr rest ih =>
    rw [List.foldl_cons,
      ih (updatePos m pr.2 (g pr)) (fun x hx => h x (List.mem_cons_of_mem pr hx))]
    exact updatePos_other m pr.2 id (g pr) (h pr (List.mem_cons_self pr rest)).symm

lemma placeRevealed_apply_notMem (anchor : Pos ℝ) (toPlace : List String)
    (positions : PosMap ℝ) (id : String) (h : id ∉ toPlace) :
    placeRevealed anchor toPlace positions id = positions id := by
  have h2 : ∀ pr ∈ toPlace.enum, pr.2 ≠ id := by
    intro pr hpr hContra
    apply h
    rw [← hContra]
    have hm : pr.2 ∈ toPlace.enum.map Prod.snd := List.mem_map_of_mem Prod.snd hpr
    rwa [List.enum_map_snd] at hm
  exact foldl_updatePos_apply
    (fun ia => ⟨anchor.x + 200 * Real.cos (expandAngle toPlace.length ia.1),
                anchor.y + 200 * Real.sin (expandAngle toPlace.length ia.1)⟩)
    toPlace.enum positions id h2

lemma expandAngle_two_zero : expandAngle 2 0 = -(Real.pi / 2) := by
  rw [expandAngle, expandStartAngle, expandAngleStep]
  norm_num

lemma expandAngle_two_one : expandAngle 2 1 = Real.pi / 2 := by
  rw [expandAngle, expandStartAngle, expandAngleStep]
  norm_num
  ring

/-- C5: when the anchor holds a non-sentinel position `a` and expansion
discovers exactly two neighbor ids `p, q` without valid positions,
`handleExpandNode` places them at `(a.x, a.y - 200)` and
`(a.x, a.y + 200)`: both at distance exactly 200 from the anchor, at the
angles `-π/2` and `π/2` (`expandAngle 2 0` and `expandAngle 2 1`), which
start at `-π/2` and differ by `π`. -/
theorem expansion_two_new_neighbors
    (nodes : List Node) (edges : List Edge) (node : Node) (positions : PosMap ℝ)
    (a : Pos ℝ) (p q : String)
    (ha : positions node.id = some a)
    (hvalid : ¬(a.x = 0 ∧ a.y = 0))
    (hr : nodesToReveal positions (discoverExpansion nodes edges node).1 = [p, q]) :
    handleExpandNodePositions nodes edges node positions p = some ⟨a.x, a.y - 200⟩ ∧
    handleExpandNodePositions nodes edges node positions q = some ⟨a.x, a.y + 200⟩ ∧
    posDist ⟨a.x, a.y - 200⟩ a = 200 ∧
    posDist ⟨a.x, a.y + 200⟩ a = 200 ∧
    expandAngle 2 0 = -(Real.pi / 2) ∧
    expandAngle 2 1 = Real.pi / 2 := by
  have hpq : p ≠ q := by
    have hn := nodesToReveal_nodup positions (discoverExpansion nodes edges node).1
    rw [hr] at hn
    rcases List.nodup_cons.mp hn with ⟨hnotin, -⟩
    exact fun he => hnotin (by rw [he]; exact List.mem_cons_self q [])
  have hm : handleExpandNodePositions nodes edges node positions =
      updatePos (updatePos positions p
          ⟨a.x + 200 * Real.cos (expandAngle 2 0),
           a.y + 200 * Real.sin (expandAngle 2 0)⟩) q
        ⟨a.x + 200 * Real.cos (expandAngle 2 1),
         a.y + 200 * Real.sin (expandAngle 2 1)⟩ := by
    unfold handleExpandNodePositions
    rw [hr, ha, Option.getD_some,
      if_pos (by norm_num : 0 < ([p, q] : List String).length),
      if_pos (not_and_or.mp hvalid)]
    rfl
  have hx0 : a.x + 200 * Real.cos (expandAngle 2 0) = a.x := by
    rw [expandAngle_two_zero, Real.cos_neg, Real.cos_pi_div_two]; ring
  have hy0 : a.y + 200 * Real.sin (expandAngle 2 0) = a.y - 200 := by
    rw [expandAngle_two_zero, Real.sin_neg, Real.sin_pi_div_two]; ring
  have hx1 : a.x + 200 * Real.cos (expandAngle 2 1) = a.x := by
    rw [expandAngle_two_one, Real.cos_pi_div_two]; ring
  have hy1 : a.y + 200 * Real.sin (expandAngle 2 1) = a.y + 200 := by
    rw [expandAngle_two_one, Real.sin_pi_div_two]; ring
  refine ⟨?_, ?_, ?_, ?_, expandAngle_two_zero, expandAngle_two_one⟩
  · rw [hm, updatePos_other _ _ _ _ hpq, updatePos_same, hx0, hy0]
  · rw [hm, updatePos_same, hx1, hy1]
  · show Real.sqrt ((a.x - a.x) ^ 2 + (a.y - 200 - a.y) ^ 2) = 200
    rw [show (a.x - a.x) ^ 2 + (a.y - 200 - a.y) ^ 2 = 200 ^ 2 by ring,
      Real.sqrt_sq (by norm_num : (0:ℝ) ≤ 200)]
  · show Real.sqrt ((a.x - a.x) ^ 2 + (a.y + 200 - a.y) ^ 2) = 200
    rw [show (a.x - a.x) ^ 2 + (a.y + 200 - a.y) ^ 2 = 200 ^ 2 by ring,
      Real.sqrt_sq (by norm_num : (0:ℝ) ≤ 200)]

/-- Witness for C5: anchor `A` at `(1,1)` with two unplaced neighbors
`P, Q` discovered via the edges `A → P` and `A → Q`. -/
theorem expansion_two_new_neighbors_witness :
    handleExpandNodePositions [] [Edge.mk "A" "P" none, Edge.mk "A" "Q" none]
      (Node.mk "A" none none none none none)
      (fun id => if id = "A" then some ⟨1, 1⟩ else none) "P" = some ⟨1, 1 - 200⟩ ∧
    handleExpandNodePositions [] [Edge.mk "A" "P" none, Edge.mk "A" "Q" none]
      (Node.mk "A" none none none none none)
      (fun id => if id = "A" then some ⟨1, 1⟩ else none) "Q" = some ⟨1, 1 + 200⟩ :=
  ⟨(expansion_two_new_neighbors [] [Edge.mk "A" "P" none, Edge.mk "A" "Q" none]
      (Node.mk "A" none none none none none)
      (fun id => if id = "A" then some ⟨1, 1⟩ else none)
      ⟨1, 1⟩ "P" "Q" rfl (by simp) rfl).1,
   (expansion_two_new_neighbors [] [Edge.mk "A" "P" none, Edge.mk "A" "Q" none]
      (Node.mk "A" none none none none none)
      (fun id => if id = "A" then some ⟨1, 1⟩ else none)
      ⟨1, 1⟩ "P" "Q" rfl (by simp) rfl).2.1⟩

/-- C6: expansion is additive-only and idempotent with respect to
placement: it never changes the stored position of a node that already
holds a valid (non-sentinel) position; when every discovered neighbor
already holds a valid position the position map is unchanged entirely;
and the highlight set is always recomputed to the anchor plus all
discovered ids with their connecting edge keys. -/
theorem expansion_additive_and_idempotent
    (nodes : List Node) (edges : List Edge) (node : Node) (positions : PosMap ℝ) :
    (∀ id p, positions id = some p → ¬(p.x = 0 ∧ p.y = 0) →
      handleExpandNodePositions nodes edges node positions id = some p) ∧
    ((∀ d ∈ (discoverExpansion nodes edges node).1,
        ∃ p, positions d = some p ∧ ¬(p.x = 0 ∧ p.y = 0)) →
      handleExpandNodePositions nodes edges node positions = positions) ∧
    (∀ x, x ∈ (handleExpandNodeHighlight nodes edges node).nodes ↔
      (x = node.id ∨ x ∈ (discoverExpansion nodes edges node).1)) ∧
    (handleExpandNodeHighlight nodes edges node).edges =
      (discoverExpansion nodes edges node).2 := by
  refine ⟨?_, ?_, ?_, rfl⟩
  · intro id p hp hv
    unfold handleExpandNodePositions
    split
    · split
      · rw [placeRevealed_apply_notMem]
        · exact hp
        · intro hmem
          rcases nodesToReveal_invalid positions _ id hmem with hnone | ⟨p', hp', hzero⟩
          · rw [hp] at hnone; exact Option.noConfusion hnone
          · rw [hp] at hp'
            injection hp' with he
            exact hv (by rw [he]; exact hzero)
      · exact hp
    · exact hp
  · intro hall
    unfold handleExpandNodePositions
    rw [nodesToReveal_nil positions _ hall]
    simp
  · intro x
    show x ∈ jsSetOfList (node.id :: (discoverExpansion nodes edges node).1) ↔ _
    rw [mem_jsSetOfList, List.mem_cons]

/-- Witness for C6: anchor `A` at `(1,1)` whose single discovered
neighbor `B` already sits at the valid position `(2,3)`: the position map
is unchanged and `B` keeps its position. -/
theorem expansion_additive_and_idempotent_witness :
    handleExpandNodePositions [] [Edge.mk "A" "B" none]
      (Node.mk "A" none none none none none)
      (fun id => if id = "A" then some ⟨1, 1⟩ else
        if id = "B" then some ⟨2, 3⟩ else none)
      = (fun id => if id = "A" then some ⟨1, 1⟩ else
        if id = "B" then some ⟨2, 3⟩ else none) ∧
    handleExpandNodePositions [] [Edge.mk "A" "B" none]
      (Node.mk "A" none none none none none)
      (fun id => if id = "A" then some ⟨1, 1⟩ else
        if id = "B" then some ⟨2, 3⟩ else none) "B" = some ⟨2, 3⟩ :=
  ⟨(expansion_additive_and_idempotent [] [Edge.mk "A" "B" none]
      (Node.mk "A" none none none none none)
      (fun id => if id = "A" then some ⟨1, 1⟩ else
        if id = "B" then some ⟨2, 3⟩ else none)).2.1
    (by
      intro d hd
      have hlist : (discoverExpansion [] [Edge.mk "A" "B" none]
          (Node.mk "A" none none none none none)).1 = ["B"] := rfl
      rw [hlist] at hd
      simp only [List.mem_singleton] at hd
      subst hd
      exact ⟨⟨2, 3⟩, rfl, by simp⟩),
   (expansion_additive_and_idempotent [] [Edge.mk "A" "B" none]
      (Node.mk "A" none none none none none)
      (fun id => if id = "A" then some ⟨1, 1⟩ else
        if id = "B" then some ⟨2, 3⟩ else none)).1
    "B" ⟨2, 3⟩ rfl (by simp)⟩
